import Mathlib

/-!
Verification of the message-exchange orchestrator of the simple-chat-ai
backend.  The definitions below are a shallow embedding of:

* `src/services/openaiService.js` (`OpenAIService.sendMessage`, lines
  217-314): argument validation, posting the user message, starting a
  run, the run-status polling loop, the bounded answer-retrieval loop,
  and the final `"Assistant:"` removal.  Remote calls are modelled by an
  environment (`Env`) scripting the outcome of each successive call, and
  each call/sleep is recorded in an event trace.  `logError`
  (lines 44-51) re-throws its error, so every caught remote failure
  aborts the enclosing attempt; the model reflects this by turning each
  such failure into a terminal outcome.
* `src/utils/textFormat.js` (`removeCitations`, lines 4-11):
  `text.replace(/【.*?】|\x7b..\x7d-free regex/g, "").trim()` is modelled as a
  left-to-right scan (`stripGo`): at each position a lazy thick-bracket
  match is tried, then a lazy square-bracket match, otherwise the
  character is kept.  A JS `.` does not match line terminators, so a
  lazy bracket match fails when a line terminator appears before the
  closing glyph (`splitClose`).
* `src/controllers/conversationController.js` (`sendMessageToAgent`,
  lines 177-188): applies `removeCitations` to a successful
  `sendMessage` result.
-/

namespace SimpleChatAI

/-- A transport-level error (an axios rejection), identified by a code. -/
structure TErr where
  code : Nat
deriving DecidableEq

/-- Run status strings distinguished by `sendMessage`
(`"queued"`/`"in_progress"` keep the poll loop going; everything else
exits it). -/
inductive RunStatus
  | queued
  | in_progress
  | completed
  | failed
  | cancelled
  | expired
deriving DecidableEq

/-- The poll-loop guard of line 257: `status === "in_progress" ||
status === "queued"`. -/
def RunStatus.isPending : RunStatus → Bool
  | .queued => true
  | .in_progress => true
  | _ => false

/-- Message roles compared against `"assistant"` on line 285. -/
inductive Role
  | user
  | assistant
deriving DecidableEq

/-- One entry of a message's `content` array; `textValue` models
`content[i]["text"].value`. -/
structure ContentBlock where
  textValue : List Char
deriving DecidableEq

/-- A thread message as consumed by the retrieval loop: `run_id`,
`role`, `content`. -/
structure ThreadMsg where
  runId : Nat
  role : Role
  content : List ContentBlock
deriving DecidableEq

/-- Observable events of one `sendMessage` call: the four remote calls
and the fixed 5000 ms sleeps. -/
inductive Ev
  | callPost
  | callStartJob
  | callGetStatus
  | callListMsgs
  | sleepEv
deriving DecidableEq

/-- Occurrence count of an event in a trace. -/
def countEv (e : Ev) (l : List Ev) : Nat :=
  (l.filter fun x => decide (x = e)).length

/-- Outcome of the polling phase (lines 245-270). -/
inductive PollOutcome
  | terminal (s : RunStatus)
  | fetchFailed (e : TErr)
  | scriptOut
deriving DecidableEq

/-- The `while` loop of lines 257-270: while the status is pending,
sleep 5000 ms and fetch the status again; a fetch failure is logged by
`logError`, which re-throws, aborting the attempt.  `scriptOut` is a
model artefact for scripts that end while the loop would continue. -/
def pollLoop : RunStatus → List (Except TErr RunStatus) → List Ev × PollOutcome
  | s, [] =>
    if s.isPending then ([], .scriptOut) else ([], .terminal s)
  | s, r :: rest =>
    if s.isPending then
      match r with
      | .error e => ([.sleepEv, .callGetStatus], .fetchFailed e)
      | .ok s' =>
        let p := pollLoop s' rest
        ([.sleepEv, .callGetStatus] ++ p.1, p.2)
    else ([], .terminal s)

/-- The polling phase: the initial status fetch of lines 247-253
followed by the `while` loop; an initial-fetch failure likewise aborts
the attempt. -/
def pollPhase : List (Except TErr RunStatus) → List Ev × PollOutcome
  | [] => ([], .scriptOut)
  | .error e :: _ => ([.callGetStatus], .fetchFailed e)
  | .ok s :: rest =>
    let p := pollLoop s rest
    (.callGetStatus :: p.1, p.2)

/-- Line 285: `messageList.data.filter((m) => m.run_id === run.id &&
m.role === "assistant").pop()` — the last matching element. -/
def matchingLast (runId : Nat) (msgs : List ThreadMsg) : Option ThreadMsg :=
  (msgs.filter fun m => decide (m.runId = runId ∧ m.role = Role.assistant)).getLast?

/-- What one successful list-messages attempt observes (lines 285-289):
no matching message, a matching message whose first content block has
empty text, a matching message with an empty `content` array (in which
case `content[0]["text"]` raises a TypeError), or a non-empty text. -/
inductive AttemptRes
  | noMsg
  | emptyText
  | contentCrash
  | got (t : List Char)
deriving DecidableEq

/-- Evaluation of the break condition of line 287 on one fetched list. -/
def attemptEval (runId : Nat) (msgs : List ThreadMsg) : AttemptRes :=
  match matchingLast runId msgs with
  | none => .noMsg
  | some m =>
    match m.content with
    | [] => .contentCrash
    | b :: _ => if b.textValue = [] then .emptyText else .got b.textValue

/-- Outcome of the retrieval phase (lines 272-300). -/
inductive RetrOutcome
  | found (t : List Char)
  | notFound
  | fetchFailed (e : TErr)
  | crashed
  | scriptOut
deriving DecidableEq

/-- The `for` loop of lines 277-296 with `retries = 5`: each attempt
fetches the message list (a fetch failure is logged and re-thrown,
aborting the loop), breaks when the last matching assistant message has
non-empty text, and otherwise sleeps `delay` ms before the next attempt.
After the final attempt the check of lines 298-300 throws `"Failed to
retrieve assistant message after retries."`. -/
def retrievalLoop : Nat → Nat → List (Except TErr (List ThreadMsg)) → List Ev × RetrOutcome
  | _, 0, _ => ([], .notFound)
  | _, _ + 1, [] => ([], .scriptOut)
  | runId, n + 1, r :: rest =>
    match r with
    | .error e => ([.callListMsgs], .fetchFailed e)
    | .ok msgs =>
      match attemptEval runId msgs with
      | .got t => ([.callListMsgs], .found t)
      | .contentCrash => ([.callListMsgs], .crashed)
      | _ =>
        let p := retrievalLoop runId n rest
        ([.callListMsgs, .sleepEv] ++ p.1, p.2)

/-- The retrieval phase with the source's budget of 5 attempts. -/
def retrievalPhase (runId : Nat) (script : List (Except TErr (List ThreadMsg))) :
    List Ev × RetrOutcome :=
  retrievalLoop runId 5 script

/-- The literal removed on line 306. -/
def assistantTag : List Char := "Assistant:".toList

/-- JS `String.prototype.includes` on our character lists. -/
def includesList (pat : List Char) : List Char → Bool
  | [] => pat.isEmpty
  | c :: cs => pat.isPrefixOf (c :: cs) || includesList pat cs

/-- JS `String.prototype.replace` with a string pattern and empty
replacement: remove the leftmost occurrence of `pat`, leave everything
else (including later occurrences) unchanged. -/
def replaceFirst (pat : List Char) : List Char → List Char
  | [] => []
  | c :: cs =>
    if pat.isPrefixOf (c :: cs) then (c :: cs).drop pat.length
    else c :: replaceFirst pat cs

/-- Lines 305-307: `if (resultMessage.includes("Assistant:"))
resultMessage = resultMessage.replace("Assistant:", "")`. -/
def stripAssistantTag (s : List Char) : List Char :=
  if includesList assistantTag s then replaceFirst assistantTag s else s

/-- Scripted outcomes of the successive remote calls made by one
`sendMessage` invocation. -/
structure Env where
  postRes : Except TErr Unit
  startRes : Except TErr Nat
  statusScript : List (Except TErr RunStatus)
  listScript : List (Except TErr (List ThreadMsg))

/-- The distinct errors `sendMessage` can raise to its caller. -/
inductive SendErr
  | invalidArgs
  | postFailed (e : TErr)
  | startFailed (e : TErr)
  | pollFetchFailed (e : TErr)
  | listFetchFailed (e : TErr)
  | contentTypeErr
  | answerNotFound
deriving DecidableEq

/-- Result of one `sendMessage` invocation. -/
inductive SendOutcome
  | ok (t : List Char)
  | err (e : SendErr)
  | modelOut
deriving DecidableEq

/-- Model of `OpenAIService.sendMessage` (lines 217-314): validate the three
arguments, post the user message (a failure is logged by `logError`,
which re-throws, so the run is never started), start the run, poll it,
retrieve the answer, and strip the first `"Assistant:"`.  The terminal
run status is not inspected after the poll loop: the code proceeds to
retrieval whatever it was. -/
def sendMessage (message threadId assistantId : List Char) (env : Env) :
    List Ev × SendOutcome :=
  if message = [] ∨ threadId = [] ∨ assistantId = [] then
    ([], .err .invalidArgs)
  else
    match env.postRes with
    | .error e => ([.callPost], .err (.postFailed e))
    | .ok _ =>
      match env.startRes with
      | .error e => ([.callPost, .callStartJob], .err (.startFailed e))
      | .ok runId =>
        let pp := pollPhase env.statusScript
        let preTr : List Ev := .callPost :: .callStartJob :: pp.1
        match pp.2 with
        | .fetchFailed e => (preTr, .err (.pollFetchFailed e))
        | .scriptOut => (preTr, .modelOut)
        | .terminal _ =>
          let rp := retrievalPhase runId env.listScript
          match rp.2 with
          | .found t => (preTr ++ rp.1, .ok (stripAssistantTag t))
          | .notFound => (preTr ++ rp.1, .err .answerNotFound)
          | .fetchFailed e => (preTr ++ rp.1, .err (.listFetchFailed e))
          | .crashed => (preTr ++ rp.1, .err .contentTypeErr)
          | .scriptOut => (preTr ++ rp.1, .modelOut)

/-- JS line terminators, the characters a regex `.` does not match. -/
def isLineTerm (c : Char) : Bool :=
  c == '\n' || c == '\r' || c == Char.ofNat 0x2028 || c == Char.ofNat 0x2029

/-- Lazy scan for the closing glyph of a bracket pair: `splitClose cl l`
returns the remainder of `l` after the first `cl` when no line
terminator precedes it, and `none` otherwise (the lazy `.*?` cannot
cross a line terminator, so the alternative fails to match). -/
def splitClose (cl : Char) : List Char → Option (List Char)
  | [] => none
  | c :: cs =>
    if c = cl then some cs
    else if isLineTerm c then none else splitClose cl cs

/-- The global replace of line 10 of `textFormat.js` as a left-to-right
scan.  `fuel` only bounds the recursion; it is always instantiated with
the length of the list, which suffices because each step consumes at
least one character. -/
def stripGo : Nat → List Char → List Char
  | _, [] => []
  | 0, l => l
  | fuel + 1, c :: cs =>
    if c = '【' then
      match splitClose '】' cs with
      | some rest => stripGo fuel rest
      | none => c :: stripGo fuel cs
    else if c = '[' then
      match splitClose ']' cs with
      | some rest => stripGo fuel rest
      | none => c :: stripGo fuel cs
    else c :: stripGo fuel cs

/-- Removing every citation span, before trimming. -/
def stripCitationsCore (s : List Char) : List Char := stripGo s.length s

/-- JS whitespace as removed by `String.prototype.trim`. -/
def isJsWs (c : Char) : Bool :=
  c == ' ' || c == '\t' || c == '\n' || c == '\r' ||
    c == Char.ofNat 11 || c == Char.ofNat 12 || c == Char.ofNat 0xA0 ||
    c == Char.ofNat 0x2028 || c == Char.ofNat 0x2029 || c == Char.ofNat 0xFEFF

/-- JS `String.prototype.trim`. -/
def jsTrim (s : List Char) : List Char :=
  ((s.dropWhile isJsWs).reverse.dropWhile isJsWs).reverse

/-- Model of `removeCitations` in `src/utils/textFormat.js`: empty (falsy) input
yields the empty string; otherwise every citation span is removed and
the result is trimmed. -/
def removeCitations (text : List Char) : List Char :=
  if text = [] then [] else jsTrim (stripCitationsCore text)

/-- The message-sending path of `sendMessageToAgent`
(`conversationController.js` lines 177-188): the controller applies
`removeCitations` to a successful `sendMessage` result. -/
def sendMessageToAgent (message threadId assistantId : List Char) (env : Env) :
    List Ev × SendOutcome :=
  let r := sendMessage message threadId assistantId env
  match r.2 with
  | .ok t => (r.1, .ok (removeCitations t))
  | o => (r.1, o)

/-- A string (as a character list) contains no bracket span of the kind
the sanitizer removes: no occurrence of `op`, followed later by `cl`
with no line terminator in between.  This is exactly "some substring
matches the corresponding lazy bracket alternative of the regex". -/
def NoSpan (op cl : Char) (s : List Char) : Prop :=
  ¬ ∃ l₁ l₂ l₃, s = l₁ ++ op :: (l₂ ++ cl :: l₃) ∧ ∀ c ∈ l₂, isLineTerm c = false

/-! Helper lemmas about event traces. -/

theorem countEv_nil (e : Ev) : countEv e [] = 0 := rfl

theorem countEv_cons (e x : Ev) (l : List Ev) :
    countEv e (x :: l) = (if x = e then 1 else 0) + countEv e l := by
  by_cases h : x = e <;> simp [countEv, List.filter_cons, h, Nat.add_comm]

theorem countEv_append (e : Ev) (l₁ l₂ : List Ev) :
    countEv e (l₁ ++ l₂) = countEv e l₁ + countEv e l₂ := by
  simp [countEv, List.filter_append]

theorem countEv_eq_zero (e : Ev) (l : List Ev) (h : ∀ x ∈ l, x ≠ e) :
    countEv e l = 0 := by
  induction l with
  | nil => rfl
  | cons x xs ih =>
    rw [countEv_cons, if_neg (h x (by simp)), ih fun y hy => h y (by simp [hy])]

theorem pollLoop_events (script : List (Except TErr RunStatus)) :
    ∀ (s : RunStatus), ∀ e ∈ (pollLoop s script).1,
      e = Ev.callGetStatus ∨ e = Ev.sleepEv := by
  induction script with
  | nil =>
    intro s e he
    by_cases h : s.isPending <;> simp [pollLoop, h] at he
  | cons r rest ih =>
    intro s e he
    by_cases h : s.isPending
    · cases r with
      | error err => simp [pollLoop, h] at he; rcases he with he | he <;> simp [he]
      | ok s' =>
        simp [pollLoop, h] at he
        rcases he with he | he | he
        · simp [he]
        · simp [he]
        · exact ih s' e he
    · simp [pollLoop, h] at he

theorem pollPhase_events (script : List (Except TErr RunStatus)) :
    ∀ e ∈ (pollPhase script).1, e = Ev.callGetStatus ∨ e = Ev.sleepEv := by
  intro e he
  cases script with
  | nil => simp [pollPhase] at he
  | cons r rest =>
    cases r with
    | error err => simp [pollPhase] at he; simp [he]
    | ok s =>
      simp [pollPhase] at he
      rcases he with he | he
      · simp [he]
      · exact pollLoop_events rest s e he

theorem retrievalLoop_events (n : Nat) :
    ∀ (runId : Nat) (script : List (Except TErr (List ThreadMsg))),
      ∀ e ∈ (retrievalLoop runId n script).1,
        e = Ev.callListMsgs ∨ e = Ev.sleepEv := by
  induction n with
  | zero => intro runId script e he; simp [retrievalLoop] at he
  | succ n ih =>
    intro runId script e he
    cases script with
    | nil => simp [retrievalLoop] at he
    | cons r rest =>
      cases r with
      | error err => simp [retrievalLoop] at he; simp [he]
      | ok msgs =>
        cases hA : attemptEval runId msgs with
        | got t => simp [retrievalLoop, hA] at he; simp [he]
        | contentCrash => simp [retrievalLoop, hA] at he; simp [he]
        | noMsg =>
          simp [retrievalLoop, hA] at he
          rcases he with he | he | he
          · simp [he]
          · simp [he]
          · exact ih runId rest e he
        | emptyText =>
          simp [retrievalLoop, hA] at he
          rcases he with he | he | he
          · simp [he]
          · simp [he]
          · exact ih runId rest e he

theorem retrievalPhase_events (runId : Nat) (script : List (Except TErr (List ThreadMsg))) :
    ∀ e ∈ (retrievalPhase runId script).1, e = Ev.callListMsgs ∨ e = Ev.sleepEv :=
  retrievalLoop_events 5 runId script

theorem countEv_startJob_pollPhase (script : List (Except TErr RunStatus)) :
    countEv Ev.callStartJob (pollPhase script).1 = 0 :=
  countEv_eq_zero _ _ fun x hx => by
    rcases pollPhase_events script x hx with h | h <;> simp [h]

theorem countEv_startJob_retrievalPhase (runId : Nat)
    (script : List (Except TErr (List ThreadMsg))) :
    countEv Ev.callStartJob (retrievalPhase runId script).1 = 0 :=
  countEv_eq_zero _ _ fun x hx => by
    rcases retrievalPhase_events runId script x hx with h | h <;> simp [h]

/-- Polling over a script of pending statuses followed by a failing
fetch: the loop consumes every pending status, then the failing fetch
aborts it. -/
theorem pollLoop_error_script (ss : List RunStatus) :
    ∀ (s : RunStatus) (e : TErr) (post : List (Except TErr RunStatus)),
      s.isPending = true → (∀ x ∈ ss, x.isPending = true) →
      (pollLoop s (ss.map Except.ok ++ Except.error e :: post)).2 = .fetchFailed e ∧
      countEv Ev.callGetStatus
        (pollLoop s (ss.map Except.ok ++ Except.error e :: post)).1 = ss.length + 1 := by
  induction ss with
  | nil =>
    intro s e post hs _
    simp [pollLoop, hs]
    rfl
  | cons x ss ih =>
    intro s e post hs hx
    have hx0 : x.isPending = true := hx x (by simp)
    have hrest : ∀ y ∈ ss, y.isPending = true := fun y hy => hx y (by simp [hy])
    have := ih x e post hx0 hrest
    simp only [List.map_cons, List.cons_append, pollLoop, hs, if_true,
      List.append_eq, List.nil_append]
    refine ⟨this.1, ?_⟩
    rw [countEv_cons, countEv_cons, this.2]
    simp
    omega

/-- The polling phase on such a script makes one status fetch per
scripted pending status plus the failing one, and aborts. -/
theorem pollPhase_error_script (ss : List RunStatus) (e : TErr)
    (post : List (Except TErr RunStatus))
    (hpend : ∀ x ∈ ss, x.isPending = true) :
    (pollPhase (ss.map Except.ok ++ Except.error e :: post)).2 = .fetchFailed e ∧
    countEv Ev.callGetStatus
      (pollPhase (ss.map Except.ok ++ Except.error e :: post)).1 = ss.length + 1 := by
  cases ss with
  | nil =>
    constructor
    · rfl
    · rfl
  | cons s ss =>
    have hs : s.isPending = true := hpend s (by simp)
    have hrest : ∀ y ∈ ss, y.isPending = true := fun y hy => hpend y (by simp [hy])
    have h := pollLoop_error_script ss s e post hs hrest
    simp only [List.map_cons, List.cons_append, pollPhase]
    constructor
    · exact h.1
    · rw [countEv_cons, h.2]
      simp
      omega

/-- A non-pending status exits the polling loop at once, whatever the
remaining script. -/
theorem pollLoop_not_pending (s : RunStatus) (script : List (Except TErr RunStatus))
    (h : s.isPending = false) : pollLoop s script = ([], .terminal s) := by
  cases script with
  | nil => simp [pollLoop, h]
  | cons r rest => simp [pollLoop, h]

/-! The claims. -/

/-- C2: if any of the three arguments of `sendMessage` is empty, the
call fails with the `InvalidRequest` error (`"Invalid 'message,
threadId, assistantId' in the assistant payload."`) and the event trace
is empty — zero remote calls are made. -/
theorem claim_C2 (message threadId assistantId : List Char) (env : Env)
    (h : message = [] ∨ threadId = [] ∨ assistantId = []) :
    sendMessage message threadId assistantId env = ([], .err .invalidArgs) := by
  unfold sendMessage
  rw [if_pos h]

/-- C2 witness: an empty message makes zero remote calls. -/
theorem claim_C2_witness :
    sendMessage [] ("t".toList) ("a".toList)
      ⟨.ok (), .ok 0, [], []⟩ = ([], .err .invalidArgs) :=
  claim_C2 [] ("t".toList) ("a".toList) ⟨.ok (), .ok 0, [], []⟩ (Or.inl rfl)

/-- The scripted status sequence of C4. -/
def statusScriptC4 : List (Except TErr RunStatus) :=
  [.ok .queued, .ok .in_progress, .ok .in_progress, .ok .completed]

/-- C4: on the scripted status sequence queued, in_progress,
in_progress, completed, the polling phase makes exactly 4 status
fetches and exits with the terminal status; whatever the script holds
afterwards, no fifth fetch occurs. -/
theorem claim_C4 (extra : List (Except TErr RunStatus)) :
    pollPhase (statusScriptC4 ++ extra) =
      ([.callGetStatus, .sleepEv, .callGetStatus, .sleepEv, .callGetStatus,
        .sleepEv, .callGetStatus], .terminal .completed) := by
  simp [statusScriptC4, pollPhase, pollLoop, RunStatus.isPending,
    pollLoop_not_pending]

/-- C4 witness: even with a fifth scripted status available, only 4
fetches happen. -/
theorem claim_C4_witness :
    pollPhase (statusScriptC4 ++ [.ok .queued]) =
      ([.callGetStatus, .sleepEv, .callGetStatus, .sleepEv, .callGetStatus,
        .sleepEv, .callGetStatus], .terminal .completed) :=
  claim_C4 [.ok .queued]

/-- The C3 scenario: one failing status fetch, then a fetch that would
succeed with a terminal status. -/
def envC3 : Env :=
  ⟨.ok (), .ok 7, [.ok .queued, .error ⟨3⟩, .ok .completed], [.ok []]⟩

/-- C3 counterexample: with a status fetch failing once while the next
fetch would succeed, `sendMessage` aborts with the transport error
after 2 status calls; the loop does not continue polling and the
succeeding third fetch is never made. -/
theorem claim_C3_counterexample :
    sendMessage ("m".toList) ("t".toList) ("a".toList) envC3 =
      ([.callPost, .callStartJob, .callGetStatus, .sleepEv, .callGetStatus],
        .err (.pollFetchFailed ⟨3⟩)) := by
  rfl

/-- C3 amended: a status-fetch failure in the polling loop is terminal
for the whole `sendMessage` attempt: the error is logged and re-thrown,
`sendMessage` fails with that transport error, and no status fetch
beyond the failing one occurs (pre.length + 1 fetches in total). -/
theorem claim_C3_amended (message threadId assistantId : List Char) (env : Env)
    (runId : Nat) (ss : List RunStatus) (e : TErr)
    (post : List (Except TErr RunStatus))
    (hm : ¬(message = [] ∨ threadId = [] ∨ assistantId = []))
    (hp : env.postRes = .ok ())
    (hs : env.startRes = .ok runId)
    (hscript : env.statusScript = ss.map Except.ok ++ Except.error e :: post)
    (hpend : ∀ s ∈ ss, s.isPending = true) :
    (sendMessage message threadId assistantId env).2 = .err (.pollFetchFailed e) ∧
    countEv Ev.callGetStatus (sendMessage message threadId assistantId env).1 =
      ss.length + 1 := by
  have h := pollPhase_error_script ss e post hpend
  rw [← hscript] at h
  unfold sendMessage
  rw [if_neg hm, hp, hs]
  simp only [h.1]
  refine ⟨trivial, ?_⟩
  rw [countEv_cons, countEv_cons, h.2]
  simp

/-- C3 amended witness. -/
theorem claim_C3_amended_witness :
    (sendMessage ("m".toList) ("t".toList) ("a".toList) envC3).2 =
      .err (.pollFetchFailed ⟨3⟩) ∧
    countEv Ev.callGetStatus
      (sendMessage ("m".toList) ("t".toList) ("a".toList) envC3).1 = 2 :=
  claim_C3_amended ("m".toList) ("t".toList) ("a".toList) envC3 7
    [RunStatus.queued] ⟨3⟩ [.ok .completed]
    (by decide) rfl rfl rfl (by decide)

/-- Failed terminal status with no matching assistant message. -/
def envC1 : Env := ⟨.ok (), .ok 7, [.ok .failed], List.replicate 5 (.ok [])⟩

/-- Completed terminal status with no matching assistant message. -/
def envC1b : Env := ⟨.ok (), .ok 7, [.ok .completed], List.replicate 5 (.ok [])⟩

/-- C1 counterexample: a job that ends in the terminal status "failed"
does not surface a distinct JobFailed error: `sendMessage` proceeds to
answer retrieval and fails with exactly the same error
(`"Failed to retrieve assistant message after retries."`) as a
completed job whose answer never appears — the two cases are
indistinguishable to the caller. -/
theorem claim_C1_counterexample :
    (sendMessage ("m".toList) ("t".toList) ("a".toList) envC1).2 =
      .err .answerNotFound ∧
    (sendMessage ("m".toList) ("t".toList) ("a".toList) envC1b).2 =
      .err .answerNotFound := by
  constructor <;> rfl

/-- C1 amended: when polling ends in a terminal non-success status
(failed, cancelled or expired), `sendMessage` stops polling and never
retries the job (the job is started exactly once), but it does not
surface a distinct JobFailed error: it proceeds to answer retrieval
and, no matching message appearing, fails with the same AnswerNotFound
error as the retrieval-exhaustion case. -/
theorem claim_C1_amended (message threadId assistantId : List Char) (env : Env)
    (runId : Nat) (s : RunStatus)
    (hm : ¬(message = [] ∨ threadId = [] ∨ assistantId = []))
    (hp : env.postRes = .ok ())
    (hs : env.startRes = .ok runId)
    (hpoll : (pollPhase env.statusScript).2 = .terminal s)
    (_hfail : s = .failed ∨ s = .cancelled ∨ s = .expired)
    (hretr : (retrievalPhase runId env.listScript).2 = .notFound) :
    (sendMessage message threadId assistantId env).2 = .err .answerNotFound ∧
    countEv Ev.callStartJob (sendMessage message threadId assistantId env).1 = 1 := by
  unfold sendMessage
  rw [if_neg hm, hp, hs]
  simp only [hpoll, hretr]
  refine ⟨trivial, ?_⟩
  rw [countEv_append, countEv_cons, countEv_cons,
    countEv_startJob_pollPhase, countEv_startJob_retrievalPhase]
  simp

/-- C1 amended witness: terminal status failed, job started once,
AnswerNotFound surfaced. -/
theorem claim_C1_amended_witness :
    (sendMessage ("m".toList) ("t".toList) ("a".toList) envC1).2 =
      .err .answerNotFound ∧
    countEv Ev.callStartJob
      (sendMessage ("m".toList) ("t".toList) ("a".toList) envC1).1 = 1 :=
  claim_C1_amended ("m".toList) ("t".toList) ("a".toList) envC1 7 .failed
    (by decide) rfl rfl rfl (Or.inl rfl) rfl

/-- Retrieval over a script of attempts none of which yields a matching
assistant message with non-empty text: all `n` attempts are made, each
followed by the delay, and the loop falls through to the post-loop
failure check. -/
theorem retrievalLoop_exhaust (ls : List (List ThreadMsg)) :
    ∀ (n runId : Nat) (extra : List (Except TErr (List ThreadMsg))),
      ls.length = n →
      (∀ l ∈ ls, attemptEval runId l = .noMsg ∨ attemptEval runId l = .emptyText) →
      (retrievalLoop runId n (ls.map Except.ok ++ extra)).2 = .notFound ∧
      countEv Ev.callListMsgs (retrievalLoop runId n (ls.map Except.ok ++ extra)).1 = n ∧
      countEv Ev.sleepEv (retrievalLoop runId n (ls.map Except.ok ++ extra)).1 = n := by
  induction ls with
  | nil =>
    intro n runId extra hn _
    subst hn
    exact ⟨rfl, rfl, rfl⟩
  | cons l ls ih =>
    intro n runId extra hn hno
    subst hn
    have h0 := hno l (by simp)
    have hrest : ∀ x ∈ ls, attemptEval runId x = .noMsg ∨ attemptEval runId x = .emptyText :=
      fun x hx => hno x (by simp [hx])
    have h := ih ls.length runId extra rfl hrest
    rcases h0 with h0 | h0 <;>
    · simp only [List.length_cons, List.map_cons, List.cons_append, retrievalLoop, h0,
        List.append_eq, List.nil_append]
      refine ⟨h.1, ?_, ?_⟩ <;>
      · rw [countEv_cons, countEv_cons]
        first
        | rw [h.2.1]
        | rw [h.2.2]
        simp
        try omega

/-- Retrieval over a script whose first attempts yield nothing and whose
next attempt yields a message with non-empty text: the loop returns at
that attempt, with no further attempt and no further delay. -/
theorem retrievalLoop_found (pre : List (List ThreadMsg)) :
    ∀ (n runId : Nat) (msgs : List ThreadMsg) (t : List Char)
      (extra : List (Except TErr (List ThreadMsg))),
      pre.length < n →
      (∀ l ∈ pre, attemptEval runId l = .noMsg ∨ attemptEval runId l = .emptyText) →
      attemptEval runId msgs = .got t →
      (retrievalLoop runId n (pre.map Except.ok ++ Except.ok msgs :: extra)).2 = .found t ∧
      countEv Ev.callListMsgs
        (retrievalLoop runId n (pre.map Except.ok ++ Except.ok msgs :: extra)).1 =
        pre.length + 1 ∧
      countEv Ev.sleepEv
        (retrievalLoop runId n (pre.map Except.ok ++ Except.ok msgs :: extra)).1 =
        pre.length := by
  induction pre with
  | nil =>
    intro n runId msgs t extra hlt _ hgot
    match n, hlt with
    | n + 1, _ =>
      simp only [List.map_nil, List.nil_append, retrievalLoop, hgot]
      exact ⟨trivial, rfl, rfl⟩
  | cons l pre ih =>
    intro n runId msgs t extra hlt hpre hgot
    match n, hlt with
    | n + 1, hlt =>
      have h0 := hpre l (by simp)
      have hrest : ∀ x ∈ pre, attemptEval runId x = .noMsg ∨ attemptEval runId x = .emptyText :=
        fun x hx => hpre x (by simp [hx])
      have h := ih n runId msgs t extra (by simpa using hlt) hrest hgot
      rcases h0 with h0 | h0 <;>
      · simp only [List.map_cons, List.cons_append, retrievalLoop, h0,
          List.append_eq, List.nil_append]
        refine ⟨h.1, ?_, ?_⟩ <;>
        · rw [countEv_cons, countEv_cons]
          first
          | rw [h.2.1]
          | rw [h.2.2]
          simp [List.length_cons]
          try omega

/-- C5: when no attempt of the answer-retrieval loop yields a matching
assistant message with non-empty text, the loop performs exactly the
configured maximum of 5 list-messages attempts, each followed by the
configured delay, and ends in the AnswerNotFound failure (`"Failed to
retrieve assistant message after retries."`) rather than returning a
value — whatever further responses the script would hold. -/
theorem claim_C5 (runId : Nat) (ls : List (List ThreadMsg))
    (extra : List (Except TErr (List ThreadMsg)))
    (hlen : ls.length = 5)
    (hno : ∀ l ∈ ls, attemptEval runId l = .noMsg ∨ attemptEval runId l = .emptyText) :
    (retrievalPhase runId (ls.map Except.ok ++ extra)).2 = .notFound ∧
    countEv Ev.callListMsgs (retrievalPhase runId (ls.map Except.ok ++ extra)).1 = 5 ∧
    countEv Ev.sleepEv (retrievalPhase runId (ls.map Except.ok ++ extra)).1 = 5 := by
  have h := retrievalLoop_exhaust ls 5 runId extra hlen hno
  exact h

/-- C5 witness: five empty message lists, and a sixth scripted response
that would match but is never fetched. -/
theorem claim_C5_witness :
    (retrievalPhase 7 ((List.replicate 5 ([] : List ThreadMsg)).map Except.ok ++
        [Except.ok [⟨7, .assistant, [⟨"late".toList⟩]⟩]])).2 = .notFound ∧
    countEv Ev.callListMsgs
      (retrievalPhase 7 ((List.replicate 5 ([] : List ThreadMsg)).map Except.ok ++
        [Except.ok [⟨7, .assistant, [⟨"late".toList⟩]⟩]])).1 = 5 ∧
    countEv Ev.sleepEv
      (retrievalPhase 7 ((List.replicate 5 ([] : List ThreadMsg)).map Except.ok ++
        [Except.ok [⟨7, .assistant, [⟨"late".toList⟩]⟩]])).1 = 5 :=
  claim_C5 7 (List.replicate 5 []) [Except.ok [⟨7, .assistant, [⟨"late".toList⟩]⟩]]
    (by decide) (by decide)

/-- C6: on the first retrieval attempt whose fetched list has, as its
last message with role assistant and the polled job's id, a message
with non-empty text, the loop returns that message's text immediately:
exactly pre.length + 1 list-messages calls, no further attempts and no
delay after the returning attempt, whatever the rest of the script. -/
theorem claim_C6 (runId : Nat) (pre : List (List ThreadMsg)) (msgs : List ThreadMsg)
    (extra : List (Except TErr (List ThreadMsg)))
    (m : ThreadMsg) (b : ContentBlock) (bs : List ContentBlock)
    (hlt : pre.length < 5)
    (hpre : ∀ l ∈ pre, attemptEval runId l = .noMsg ∨ attemptEval runId l = .emptyText)
    (hlast : matchingLast runId msgs = some m)
    (hc : m.content = b :: bs)
    (ht : b.textValue ≠ []) :
    (retrievalPhase runId (pre.map Except.ok ++ Except.ok msgs :: extra)).2 =
      .found b.textValue ∧
    countEv Ev.callListMsgs
      (retrievalPhase runId (pre.map Except.ok ++ Except.ok msgs :: extra)).1 =
      pre.length + 1 ∧
    countEv Ev.sleepEv
      (retrievalPhase runId (pre.map Except.ok ++ Except.ok msgs :: extra)).1 =
      pre.length := by
  have hgot : attemptEval runId msgs = .got b.textValue := by
    simp [attemptEval, hlast, hc, ht]
  exact retrievalLoop_found pre 5 runId msgs b.textValue extra hlt hpre hgot

/-- Two matching assistant messages; the later one must win. -/
def msgsC6 : List ThreadMsg :=
  [⟨7, .assistant, [⟨"first".toList⟩]⟩, ⟨9, .assistant, [⟨"other run".toList⟩]⟩,
    ⟨7, .user, [⟨"question".toList⟩]⟩, ⟨7, .assistant, [⟨"second".toList⟩]⟩]

/-- C6 witness: an empty first attempt, then a list holding two matching
assistant messages — the loop returns the last one's text after exactly
2 attempts and 1 delay, ignoring the scripted third response. -/
theorem claim_C6_witness :
    (retrievalPhase 7 ([([] : List ThreadMsg)].map Except.ok ++
        Except.ok msgsC6 :: [Except.ok []])).2 = .found ("second".toList) ∧
    countEv Ev.callListMsgs
      (retrievalPhase 7 ([([] : List ThreadMsg)].map Except.ok ++
        Except.ok msgsC6 :: [Except.ok []])).1 = 2 ∧
    countEv Ev.sleepEv
      (retrievalPhase 7 ([([] : List ThreadMsg)].map Except.ok ++
        Except.ok msgsC6 :: [Except.ok []])).1 = 1 :=
  claim_C6 7 [[]] msgsC6 [Except.ok []]
    ⟨7, .assistant, [⟨"second".toList⟩]⟩ ⟨"second".toList⟩ []
    (by decide) (by decide) (by decide) rfl (by decide)

/-- A failing user-message post. -/
def envC9 : Env := ⟨.error ⟨9⟩, .ok 7, [.ok .completed], [.ok []]⟩

/-- C9 counterexample: when the user-message post fails, `sendMessage`
does not proceed to start the job: the trace contains no job-start
call, refuting "proceeds to start the job regardless of whether the
post succeeded or failed". -/
theorem claim_C9_counterexample :
    sendMessage ("m".toList) ("t".toList) ("a".toList) envC9 =
      ([.callPost], .err (.postFailed ⟨9⟩)) ∧
    Ev.callStartJob ∉ [Ev.callPost] := by
  exact ⟨rfl, by decide⟩

/-- C9 amended: within one `sendMessage` call the job start occurs only
after the user-message post attempt completes, and only when it
succeeded: on a post failure the error is logged and re-thrown and the
job is never started; on a successful post the trace begins with the
post call followed by the job-start call. -/
theorem claim_C9_amended (message threadId assistantId : List Char) (env : Env)
    (hm : ¬(message = [] ∨ threadId = [] ∨ assistantId = [])) :
    (∀ e : TErr, env.postRes = .error e →
      sendMessage message threadId assistantId env =
        ([.callPost], .err (.postFailed e))) ∧
    (env.postRes = .ok () → ∃ tr,
      (sendMessage message threadId assistantId env).1 =
        .callPost :: .callStartJob :: tr) := by
  constructor
  · intro e he
    unfold sendMessage
    rw [if_neg hm, he]
  · intro hp
    unfold sendMessage
    rw [if_neg hm, hp]
    cases hs : env.startRes with
    | error e => exact ⟨[], rfl⟩
    | ok runId =>
      cases hpoll : (pollPhase env.statusScript).2 with
      | fetchFailed e => exact ⟨(pollPhase env.statusScript).1, by simp [hpoll]⟩
      | scriptOut => exact ⟨(pollPhase env.statusScript).1, by simp [hpoll]⟩
      | terminal s =>
        cases hretr : (retrievalPhase runId env.listScript).2 with
        | found t =>
          exact ⟨(pollPhase env.statusScript).1 ++ (retrievalPhase runId env.listScript).1,
            by simp [hpoll, hretr]⟩
        | notFound =>
          exact ⟨(pollPhase env.statusScript).1 ++ (retrievalPhase runId env.listScript).1,
            by simp [hpoll, hretr]⟩
        | fetchFailed e =>
          exact ⟨(pollPhase env.statusScript).1 ++ (retrievalPhase runId env.listScript).1,
            by simp [hpoll, hretr]⟩
        | crashed =>
          exact ⟨(pollPhase env.statusScript).1 ++ (retrievalPhase runId env.listScript).1,
            by simp [hpoll, hretr]⟩
        | scriptOut =>
          exact ⟨(pollPhase env.statusScript).1 ++ (retrievalPhase runId env.listScript).1,
            by simp [hpoll, hretr]⟩

/-- C9 amended witness: on a failing post the job is never started; on
a successful post the job start immediately follows the post. -/
theorem claim_C9_amended_witness :
    sendMessage ("m".toList) ("t".toList) ("a".toList) envC9 =
      ([.callPost], .err (.postFailed ⟨9⟩)) ∧
    ∃ tr, (sendMessage ("m".toList) ("t".toList) ("a".toList) envC1).1 =
      .callPost :: .callStartJob :: tr :=
  ⟨(claim_C9_amended ("m".toList) ("t".toList) ("a".toList) envC9
      (by decide)).1 ⟨9⟩ rfl,
    (claim_C9_amended ("m".toList) ("t".toList) ("a".toList) envC1
      (by decide)).2 rfl⟩

/-- The function `includesList` agrees with list containment. -/
theorem includesList_iff (pat s : List Char) : includesList pat s = true ↔ pat <:+: s := by
  induction s with
  | nil => simp [includesList, List.isEmpty_iff]
  | cons c cs ih =>
    rw [List.infix_cons_iff]
    simp [includesList, List.isPrefixOf_iff_prefix, ih]

/-- Removing a pattern sitting at the very front. -/
theorem replaceFirst_self (pat b : List Char) : replaceFirst pat (pat ++ b) = b := by
  cases pat with
  | nil =>
    cases b with
    | nil => rfl
    | cons c cs => simp [replaceFirst, List.isPrefixOf_iff_prefix]
  | cons p ps =>
    have hpp : (p :: ps).isPrefixOf (p :: (ps ++ b)) = true := by
      rw [List.isPrefixOf_iff_prefix, ← List.cons_append]
      exact List.prefix_append _ _
    show replaceFirst (p :: ps) (p :: (ps ++ b)) = b
    rw [replaceFirst, if_pos hpp, ← List.cons_append]
    exact List.drop_left (p :: ps) b

/-- The function `replaceFirst` removes exactly the leftmost occurrence of the
pattern, leaving every other character — including later occurrences of
the pattern — unchanged. -/
theorem replaceFirst_leftmost (pat : List Char) :
    ∀ a b : List Char,
      (∀ a' b', a ++ pat ++ b = a' ++ pat ++ b' → a.length ≤ a'.length) →
      replaceFirst pat (a ++ pat ++ b) = a ++ b := by
  intro a
  induction a with
  | nil =>
    intro b _
    simpa using replaceFirst_self pat b
  | cons x a ih =>
    intro b hmin
    have hnp : ¬ pat.isPrefixOf (x :: (a ++ pat ++ b)) = true := by
      rw [List.isPrefixOf_iff_prefix]
      intro hpp
      obtain ⟨r, hr⟩ := hpp
      have h0 := hmin [] r (by simpa using hr.symm)
      simp at h0
    show replaceFirst pat (x :: (a ++ pat ++ b)) = x :: (a ++ b)
    rw [replaceFirst, if_neg hnp]
    have hmin' : ∀ a' b', a ++ pat ++ b = a' ++ pat ++ b' → a.length ≤ a'.length := by
      intro a' b' he
      have h := hmin (x :: a') b' (by simp [he])
      simpa using h
    rw [ih b hmin']

/-- C10: a successfully retrieved answer text is returned with the
leftmost occurrence of the literal `"Assistant:"` removed; the
controller applies the citation stripper afterwards, on that already
transformed text; the removal deletes exactly the first occurrence and
leaves everything else, later occurrences included, unchanged; a text
not containing the literal is returned as is. -/
theorem claim_C10 :
    (∀ (message threadId assistantId : List Char) (env : Env) (runId : Nat)
        (s : RunStatus) (raw : List Char),
      ¬(message = [] ∨ threadId = [] ∨ assistantId = []) →
      env.postRes = .ok () → env.startRes = .ok runId →
      (pollPhase env.statusScript).2 = .terminal s →
      (retrievalPhase runId env.listScript).2 = .found raw →
      (sendMessage message threadId assistantId env).2 = .ok (stripAssistantTag raw) ∧
      (sendMessageToAgent message threadId assistantId env).2 =
        .ok (removeCitations (stripAssistantTag raw))) ∧
    (∀ a b : List Char,
      (∀ a' b', a ++ assistantTag ++ b = a' ++ assistantTag ++ b' → a.length ≤ a'.length) →
      stripAssistantTag (a ++ assistantTag ++ b) = a ++ b) ∧
    (∀ s : List Char, ¬ assistantTag <:+: s → stripAssistantTag s = s) := by
  refine ⟨?_, ?_, ?_⟩
  · intro message threadId assistantId env runId s raw hm hp hs hpoll hretr
    have hsend : (sendMessage message threadId assistantId env).2 =
        .ok (stripAssistantTag raw) := by
      unfold sendMessage
      rw [if_neg hm, hp, hs]
      simp only [hpoll, hretr]
    refine ⟨hsend, ?_⟩
    unfold sendMessageToAgent
    simp only [hsend]
  · intro a b hmin
    have hinc : includesList assistantTag (a ++ assistantTag ++ b) = true := by
      rw [includesList_iff]
      exact ⟨a, b, by simp⟩
    rw [stripAssistantTag, if_pos hinc]
    exact replaceFirst_leftmost assistantTag a b hmin
  · intro s hninf
    have hninc : ¬ includesList assistantTag s = true := by
      rw [includesList_iff]; exact hninf
    rw [stripAssistantTag, if_neg hninc]

/-- Environment for the C10 witness: the retrieved raw text holds the
tag at the front and once more later. -/
def envC10 : Env :=
  ⟨.ok (), .ok 7, [.ok .completed],
    [.ok [⟨7, .assistant, [⟨"Assistant: yes Assistant: no".toList⟩]⟩]]⟩

/-- C10 witness: the pipeline returns the raw text with only the first
`"Assistant:"` removed, and the controller strips citations on that
result; the removal laws are exercised at concrete texts. -/
theorem claim_C10_witness :
    ((sendMessage ("m".toList) ("t".toList) ("a".toList) envC10).2 =
      .ok (stripAssistantTag ("Assistant: yes Assistant: no".toList)) ∧
    (sendMessageToAgent ("m".toList) ("t".toList) ("a".toList) envC10).2 =
      .ok (removeCitations (stripAssistantTag ("Assistant: yes Assistant: no".toList)))) ∧
    stripAssistantTag ([] ++ assistantTag ++ (" yes Assistant: no".toList)) =
      [] ++ " yes Assistant: no".toList ∧
    stripAssistantTag ("plain".toList) = "plain".toList :=
  ⟨claim_C10.1 ("m".toList) ("t".toList) ("a".toList) envC10 7 .completed
      ("Assistant: yes Assistant: no".toList) (by decide) rfl rfl rfl rfl,
    claim_C10.2.1 [] (" yes Assistant: no".toList)
      (fun a' _ _ => Nat.zero_le a'.length),
    claim_C10.2.2 ("plain".toList) (by decide)⟩

/-! The sanitizer: no citation span survives, and stripping is
idempotent. -/

/-- The prefix of a string up to (excluding) its first line terminator:
the only region in which a regex `.` can still match. -/
def beforeLT (l : List Char) : List Char :=
  l.takeWhile fun c => !isLineTerm c

theorem beforeLT_cons_of_neg {c : Char} {l : List Char} (h : isLineTerm c = false) :
    beforeLT (c :: l) = c :: beforeLT l := by
  simp [beforeLT, List.takeWhile_cons, h]

theorem beforeLT_cons_of_pos {c : Char} {l : List Char} (h : isLineTerm c = true) :
    beforeLT (c :: l) = [] := by
  simp [beforeLT, List.takeWhile_cons, h]

theorem beforeLT_append (l₁ l₂ : List Char) (h : ∀ c ∈ l₁, isLineTerm c = false) :
    beforeLT (l₁ ++ l₂) = l₁ ++ beforeLT l₂ := by
  induction l₁ with
  | nil => simp
  | cons c cs ih =>
    have hc : isLineTerm c = false := h c (by simp)
    rw [List.cons_append, beforeLT_cons_of_neg hc,
      ih fun x hx => h x (by simp [hx])]
    rfl

theorem splitClose_some (cl : Char) (l : List Char) :
    ∀ r, splitClose cl l = some r →
      ∃ seg, l = seg ++ cl :: r ∧ ∀ c ∈ seg, isLineTerm c = false := by
  induction l with
  | nil => intro r hr; simp [splitClose] at hr
  | cons c cs ih =>
    intro r hr
    by_cases hc : c = cl
    · rw [splitClose, if_pos hc] at hr
      exact ⟨[], by simp [hc, Option.some.inj hr], by simp⟩
    · rw [splitClose, if_neg hc] at hr
      by_cases hlt : isLineTerm c
      · rw [if_pos hlt] at hr; cases hr
      · rw [if_neg hlt] at hr
        obtain ⟨seg, hseg, hall⟩ := ih r hr
        refine ⟨c :: seg, by simp [hseg], ?_⟩
        intro x hx
        rcases List.mem_cons.mp hx with hx | hx
        · simpa [hx] using hlt
        · exact hall x hx

theorem splitClose_none (cl : Char) (l : List Char) :
    splitClose cl l = none → cl ∉ beforeLT l := by
  induction l with
  | nil => intro _ h; simp [beforeLT] at h
  | cons c cs ih =>
    intro hn hmem
    by_cases hc : c = cl
    · rw [splitClose, if_pos hc] at hn; cases hn
    · rw [splitClose, if_neg hc] at hn
      by_cases hlt : isLineTerm c
      · rw [beforeLT_cons_of_pos hlt] at hmem
        simp at hmem
      · rw [if_neg hlt] at hn
        rw [beforeLT_cons_of_neg (by simpa using hlt)] at hmem
        rcases List.mem_cons.mp hmem with hx | hx
        · exact hc hx.symm
        · exact ih hn hx

theorem mem_beforeLT_decomp (cl : Char) (l₂ l₃ : List Char)
    (hcl : isLineTerm cl = false) (h : ∀ c ∈ l₂, isLineTerm c = false) :
    cl ∈ beforeLT (l₂ ++ cl :: l₃) := by
  rw [beforeLT_append l₂ (cl :: l₃) h, beforeLT_cons_of_neg hcl]
  simp

/-- Characters still in regex range in the output of the stripping scan
were in regex range in its input: the scan deletes characters but never
a line terminator. -/
theorem stripGo_beforeLT (fuel : Nat) :
    ∀ s : List Char, s.length ≤ fuel →
      ∀ x, x ∈ beforeLT (stripGo fuel s) → x ∈ beforeLT s := by
  induction fuel with
  | zero =>
    intro s hs x hx
    rw [List.length_eq_zero.mp (Nat.le_zero.mp hs)] at hx ⊢
    exact hx
  | succ fuel ih =>
    intro s hs x hx
    have keep : ∀ (c : Char) (cs : List Char), cs.length ≤ fuel →
        x ∈ beforeLT (c :: stripGo fuel cs) → x ∈ beforeLT (c :: cs) := by
      intro c cs hlen hmem
      by_cases hlt : isLineTerm c
      · rw [beforeLT_cons_of_pos hlt] at hmem
        simp at hmem
      · have hlf : isLineTerm c = false := by simpa using hlt
        rw [beforeLT_cons_of_neg hlf] at hmem ⊢
        rcases List.mem_cons.mp hmem with hm | hm
        · simp [hm]
        · exact List.mem_cons_of_mem c (ih cs hlen x hm)
    match s, hs with
    | [], _ => exact hx
    | c :: cs, hs =>
      have hcs : cs.length ≤ fuel := by
        simpa [Nat.succ_le_succ_iff] using hs
      by_cases h1 : c = '【'
      · cases hsp : splitClose '】' cs with
        | some rest =>
          rw [stripGo, if_pos h1, hsp] at hx
          obtain ⟨seg, hseg, hall⟩ := splitClose_some '】' cs rest hsp
          have hrest : rest.length ≤ fuel := by
            have := congrArg List.length hseg
            simp [List.length_append] at this
            omega
          have hxr := ih rest hrest x hx
          have hcf : isLineTerm c = false := by rw [h1]; decide
          rw [beforeLT_cons_of_neg hcf, hseg,
            beforeLT_append seg ('】' :: rest) hall,
            beforeLT_cons_of_neg (by decide : isLineTerm '】' = false)]
          simp only [List.mem_cons, List.mem_append]
          exact Or.inr (Or.inr (Or.inr hxr))
        | none =>
          rw [stripGo, if_pos h1, hsp] at hx
          exact keep c cs hcs hx
      · by_cases h2 : c = '['
        · cases hsp : splitClose ']' cs with
          | some rest =>
            rw [stripGo, if_neg h1, if_pos h2, hsp] at hx
            obtain ⟨seg, hseg, hall⟩ := splitClose_some ']' cs rest hsp
            have hrest : rest.length ≤ fuel := by
              have := congrArg List.length hseg
              simp [List.length_append] at this
              omega
            have hxr := ih rest hrest x hx
            have hcf : isLineTerm c = false := by rw [h2]; decide
            rw [beforeLT_cons_of_neg hcf, hseg,
              beforeLT_append seg (']' :: rest) hall,
              beforeLT_cons_of_neg (by decide : isLineTerm ']' = false)]
            simp only [List.mem_cons, List.mem_append]
            exact Or.inr (Or.inr (Or.inr hxr))
          | none =>
            rw [stripGo, if_neg h1, if_pos h2, hsp] at hx
            exact keep c cs hcs hx
        · rw [stripGo, if_neg h1, if_neg h2] at hx
          exact keep c cs hcs hx

theorem NoSpan_nil (op cl : Char) : NoSpan op cl [] := by
  rintro ⟨l₁, l₂, l₃, heq, -⟩
  simp at heq

theorem NoSpan_tail {op cl c : Char} {t : List Char}
    (h : NoSpan op cl (c :: t)) : NoSpan op cl t := by
  rintro ⟨l₁, l₂, l₃, heq, hl₂⟩
  exact h ⟨c :: l₁, l₂, l₃, by simp [heq], hl₂⟩

theorem NoSpan_cons {op cl c : Char} {t : List Char}
    (hcl : isLineTerm cl = false)
    (h1 : NoSpan op cl t) (h2 : c = op → cl ∉ beforeLT t) :
    NoSpan op cl (c :: t) := by
  rintro ⟨l₁, l₂, l₃, heq, hl₂⟩
  cases l₁ with
  | nil =>
    simp only [List.nil_append, List.cons.injEq] at heq
    exact h2 heq.1 (heq.2 ▸ mem_beforeLT_decomp cl l₂ l₃ hcl hl₂)
  | cons y l₁ =>
    simp only [List.cons_append, List.cons.injEq] at heq
    exact h1 ⟨l₁, l₂, l₃, heq.2, hl₂⟩

/-- The output of the stripping scan contains no citation span of
either kind. -/
theorem stripGo_nospan (fuel : Nat) :
    ∀ s : List Char, s.length ≤ fuel →
      NoSpan '【' '】' (stripGo fuel s) ∧ NoSpan '[' ']' (stripGo fuel s) := by
  induction fuel with
  | zero =>
    intro s hs
    rw [List.length_eq_zero.mp (Nat.le_zero.mp hs)]
    exact ⟨NoSpan_nil _ _, NoSpan_nil _ _⟩
  | succ fuel ih =>
    intro s hs
    match s, hs with
    | [], _ => exact ⟨NoSpan_nil _ _, NoSpan_nil _ _⟩
    | c :: cs, hs =>
      have hcs : cs.length ≤ fuel := by
        simpa [Nat.succ_le_succ_iff] using hs
      by_cases h1 : c = '【'
      · cases hsp : splitClose '】' cs with
        | some rest =>
          rw [stripGo, if_pos h1, hsp]
          obtain ⟨seg, hseg, -⟩ := splitClose_some '】' cs rest hsp
          have hrest : rest.length ≤ fuel := by
            have := congrArg List.length hseg
            simp [List.length_append] at this
            omega
          exact ih rest hrest
        | none =>
          rw [stripGo, if_pos h1, hsp]
          constructor
          · refine NoSpan_cons (by decide) (ih cs hcs).1 ?_
            intro _ hmem
            exact splitClose_none '】' cs hsp (stripGo_beforeLT fuel cs hcs '】' hmem)
          · refine NoSpan_cons (by decide) (ih cs hcs).2 ?_
            intro hop
            rw [h1] at hop
            cases hop
      · by_cases h2 : c = '['
        · cases hsp : splitClose ']' cs with
          | some rest =>
            rw [stripGo, if_neg h1, if_pos h2, hsp]
            obtain ⟨seg, hseg, -⟩ := splitClose_some ']' cs rest hsp
            have hrest : rest.length ≤ fuel := by
              have := congrArg List.length hseg
              simp [List.length_append] at this
              omega
            exact ih rest hrest
          | none =>
            rw [stripGo, if_neg h1, if_pos h2, hsp]
            constructor
            · refine NoSpan_cons (by decide) (ih cs hcs).1 ?_
              intro hop
              rw [h2] at hop
              cases hop
            · refine NoSpan_cons (by decide) (ih cs hcs).2 ?_
              intro _ hmem
              exact splitClose_none ']' cs hsp (stripGo_beforeLT fuel cs hcs ']' hmem)
        · rw [stripGo, if_neg h1, if_neg h2]
          constructor
          · exact NoSpan_cons (by decide) (ih cs hcs).1 fun hop => absurd hop h1
          · exact NoSpan_cons (by decide) (ih cs hcs).2 fun hop => absurd hop h2

theorem NoSpan_within {op cl : Char} {s t : List Char}
    (hinf : t <:+: s) (h : NoSpan op cl s) : NoSpan op cl t := by
  rintro ⟨l₁, l₂, l₃, heq, hl₂⟩
  obtain ⟨u, v, huv⟩ := hinf
  exact h ⟨u ++ l₁, l₂, l₃ ++ v, by rw [← huv, heq]; simp, hl₂⟩

theorem jsTrim_within (s : List Char) : jsTrim s <:+: s := by
  have h1 : s.dropWhile isJsWs <:+ s := List.dropWhile_suffix isJsWs
  have h2 : jsTrim s <+: s.dropWhile isJsWs := by
    rw [jsTrim]
    have h3 := List.reverse_prefix.mpr
      (List.dropWhile_suffix (l := (s.dropWhile isJsWs).reverse) isJsWs)
    simpa using h3
  exact h2.isInfix.trans h1.isInfix

/-- The sanitizer leaves no citation span of either kind. -/
theorem removeCitations_nospan (s : List Char) :
    NoSpan '【' '】' (removeCitations s) ∧ NoSpan '[' ']' (removeCitations s) := by
  by_cases hs : s = []
  · rw [removeCitations, if_pos hs]
    exact ⟨NoSpan_nil _ _, NoSpan_nil _ _⟩
  · rw [removeCitations, if_neg hs]
    have h := stripGo_nospan s.length s (Nat.le_refl _)
    exact ⟨NoSpan_within (jsTrim_within _) h.1, NoSpan_within (jsTrim_within _) h.2⟩

/-- C7: the sanitizer output never contains a remaining citation span —
neither a thick-bracket pair nor a square-bracket pair (a span being an
opening glyph later closed with no line terminator between, exactly
what the lazy regex alternatives match) — and hence every text a
successful pipeline returns is free of both span kinds. -/
theorem claim_C7 :
    (∀ x : List Char,
      NoSpan '【' '】' (removeCitations x) ∧ NoSpan '[' ']' (removeCitations x)) ∧
    (∀ (message threadId assistantId : List Char) (env : Env) (t : List Char),
      (sendMessageToAgent message threadId assistantId env).2 = .ok t →
      NoSpan '【' '】' t ∧ NoSpan '[' ']' t) := by
  refine ⟨removeCitations_nospan, ?_⟩
  intro message threadId assistantId env t hok
  cases hsend : (sendMessage message threadId assistantId env).2 with
  | ok raw =>
    simp only [sendMessageToAgent, hsend, SendOutcome.ok.injEq] at hok
    rw [← hok]
    exact removeCitations_nospan raw
  | err e => simp [sendMessageToAgent, hsend] at hok
  | modelOut => simp [sendMessageToAgent, hsend] at hok

/-- Environment for the C7 witness: the raw answer carries one span of
each kind. -/
def envC7 : Env :=
  ⟨.ok (), .ok 7, [.ok .completed],
    [.ok [⟨7, .assistant, [⟨"ok【114:0 ref.txt】 see [1] now".toList⟩]⟩]]⟩

/-- C7 witness: the pipeline succeeds on a raw text containing both
span kinds and the returned text contains neither. -/
theorem claim_C7_witness :
    (sendMessageToAgent ("m".toList) ("t".toList) ("a".toList) envC7).2 =
      .ok ("ok see  now".toList) ∧
    NoSpan '【' '】' ("ok see  now".toList) ∧
    NoSpan '[' ']' ("ok see  now".toList) :=
  ⟨rfl, claim_C7.2 ("m".toList) ("t".toList) ("a".toList) envC7
    ("ok see  now".toList) rfl⟩

/-- On a string already free of spans the stripping scan is the
identity. -/
theorem stripGo_id_of_nospan (fuel : Nat) :
    ∀ s : List Char, s.length ≤ fuel →
      NoSpan '【' '】' s → NoSpan '[' ']' s → stripGo fuel s = s := by
  induction fuel with
  | zero =>
    intro s hs _ _
    rw [List.length_eq_zero.mp (Nat.le_zero.mp hs)]
    rfl
  | succ fuel ih =>
    intro s hs hthick hsq
    match s, hs with
    | [], _ => rfl
    | c :: cs, hs =>
      have hcs : cs.length ≤ fuel := by
        simpa [Nat.succ_le_succ_iff] using hs
      by_cases h1 : c = '【'
      · cases hsp : splitClose '】' cs with
        | some rest =>
          exfalso
          obtain ⟨seg, hseg, hall⟩ := splitClose_some '】' cs rest hsp
          exact hthick ⟨[], seg, rest, by simp [h1, hseg], hall⟩
        | none =>
          rw [stripGo, if_pos h1, hsp,
            ih cs hcs (NoSpan_tail hthick) (NoSpan_tail hsq)]
      · by_cases h2 : c = '['
        · cases hsp : splitClose ']' cs with
          | some rest =>
            exfalso
            obtain ⟨seg, hseg, hall⟩ := splitClose_some ']' cs rest hsp
            exact hsq ⟨[], seg, rest, by simp [h2, hseg], hall⟩
          | none =>
            rw [stripGo, if_neg h1, if_pos h2, hsp,
              ih cs hcs (NoSpan_tail hthick) (NoSpan_tail hsq)]
        · rw [stripGo, if_neg h1, if_neg h2,
            ih cs hcs (NoSpan_tail hthick) (NoSpan_tail hsq)]

theorem dropWhile_idem (p : Char → Bool) (l : List Char) :
    (l.dropWhile p).dropWhile p = l.dropWhile p := by
  cases hd : l.dropWhile p with
  | nil => rfl
  | cons c t =>
    have hc : p c = false := by
      have := List.head_dropWhile_not p l (by simp [hd])
      simpa [hd] using this
    simp [List.dropWhile_cons, hc]

theorem dropWhile_head_false (p : Char → Bool) (l : List Char) (c : Char)
    (t : List Char) (h : l.dropWhile p = c :: t) : p c = false := by
  have hw := List.head_dropWhile_not p l (by simp [h])
  simpa [h] using hw

theorem jsTrim_idem (s : List Char) : jsTrim (jsTrim s) = jsTrim s := by
  have hstep : (jsTrim s).dropWhile isJsWs = jsTrim s := by
    cases hd : jsTrim s with
    | nil => rfl
    | cons c t =>
      have hpre : c :: t <+: s.dropWhile isJsWs := by
        rw [← hd, jsTrim]
        have h3 := List.reverse_prefix.mpr
          (List.dropWhile_suffix (l := (s.dropWhile isJsWs).reverse) isJsWs)
        simpa using h3
      obtain ⟨r, hr⟩ := hpre
      have hc : isJsWs c = false :=
        dropWhile_head_false isJsWs s c (t ++ r) (by simpa using hr.symm)
      simp [List.dropWhile_cons, hc]
  conv_lhs => rw [jsTrim]
  rw [hstep, jsTrim, List.reverse_reverse, dropWhile_idem]

/-- C8: the sanitizer is idempotent — applying it twice gives the
result of applying it once, on every input. -/
theorem claim_C8 (x : List Char) :
    removeCitations (removeCitations x) = removeCitations x := by
  by_cases hx : x = []
  · rw [hx]
    rfl
  · have hns := removeCitations_nospan x
    by_cases hynil : removeCitations x = []
    · rw [hynil]
      rfl
    · conv_lhs => rw [removeCitations]
      rw [if_neg hynil, stripCitationsCore,
        stripGo_id_of_nospan (removeCitations x).length (removeCitations x)
          (Nat.le_refl _) hns.1 hns.2]
      conv_lhs => rw [removeCitations, if_neg hx]
      conv_rhs => rw [removeCitations, if_neg hx]
      exact jsTrim_idem _

/-- C8 witness: idempotence at a concrete text carrying both span
kinds. -/
theorem claim_C8_witness :
    removeCitations (removeCitations (" a【x】 b [1] c ".toList)) =
      removeCitations (" a【x】 b [1] c ".toList) :=
  claim_C8 (" a【x】 b [1] c ".toList)

end SimpleChatAI
